import Mathlib

/-!
Verification development for the caching and pooled-access layer of the
DIGITAL_COMPANION repository.

We shallowly embed three components:

* `ContextCache` (src/auth_and_cache.py): the two-tier chunk cache with an
  exact (hash-keyed) index and a semantic (embedding-similarity) index, both
  persisted write-through.
* `PostgreSQLService.get_cached_response` / `cache_response`
  (src/services/postgresql_service.py): the TTL response cache over the
  `response_cache` table, modelled as a list of rows; each SQL statement is an
  atomic store transformer.
* `DatabaseWrapper._run_async` (src/services/database_wrapper.py): the
  synchronous bridge over the asynchronous service.

External capabilities (the sentence-transformer embedding model, the sha256
digest, cosine similarity over float vectors) are taken as parameters of the
model: the claims under study depend only on their determinism, never on
their numeric content.  Machine time is modelled as `Nat`; SQL
`CURRENT_TIMESTAMP` is a per-statement time parameter.
-/

/-- Outcome tag of one `ContextCache.get_chunk` call: which of the three
paths in the source returned.  An embedding is computed iff the tag is not
`exactHit` (the exact path returns before `self.model.encode` runs). -/
inductive ChunkHit where
  | exactHit
  | semHit
  | cacheMiss
  deriving DecidableEq, Repr

/-- Model parameters of `ContextCache`: the embedding model (`encode`, the
external `SentenceTransformer`), similarity (`sim`, cosine over the vectors —
kept abstract, valued in `ℚ`), the configured threshold `semThreshold`, and
the content digest (`digest`, sha256 hexdigest). -/
structure ChunkCfg (E : Type) where
  encode : String → E
  sim : E → E → ℚ
  semThreshold : ℚ
  digest : String → String

/-- State of a `ContextCache` instance: the two in-memory indexes
(`exact_cache` as an association list hash → text, `sem_cache` as the ordered
list of (embedding, text) pairs) plus the two persisted pickle files, each a
snapshot written by `_save_exact` / `_save_sem`. -/
structure ContextCache (E : Type) where
  exactCache : List (String × String)
  semCache : List (E × String)
  persistedExact : List (String × String)
  persistedSem : List (E × String)
  deriving DecidableEq

/-- Dictionary lookup modelling `h in self.exact_cache` / `self.exact_cache[h]`. -/
def lookupExact (h : String) (ec : List (String × String)) : Option String :=
  (ec.find? (fun p => p.1 == h)).map (fun p => p.2)

/-- The linear scan of `sem_cache`: first stored entry whose similarity to
`emb` reaches the threshold (`sim >= self.sem_threshold` in the source). -/
def semScan {E : Type} (cfg : ChunkCfg E) (emb : E) (sc : List (E × String)) :
    Option String :=
  (sc.find? (fun et => cfg.semThreshold ≤ cfg.sim et.1 emb)).map (fun et => et.2)

/-- Model of `ContextCache.get_chunk` (src/auth_and_cache.py lines 123–146): exact
lookup, then embedding + semantic scan, then miss handling (register under
the hash, append to the semantic index, persist both).  Returns the text, the
new cache state and the path taken. -/
def getChunk {E : Type} (cfg : ChunkCfg E) (st : ContextCache E)
    (chunk : String) : String × ContextCache E × ChunkHit :=
  let h := cfg.digest chunk
  match lookupExact h st.exactCache with
  | some txt => (txt, st, ChunkHit.exactHit)
  | none =>
    let emb := cfg.encode chunk
    match semScan cfg emb st.semCache with
    | some txt => (txt, st, ChunkHit.semHit)
    | none =>
      let ec := (h, chunk) :: st.exactCache
      let sc := st.semCache ++ [(emb, chunk)]
      (chunk, ⟨ec, sc, ec, sc⟩, ChunkHit.cacheMiss)

/-- Model of `ContextCache.clear_caches`: clears both indexes and persists the
empty state. -/
def clearCaches {E : Type} (_st : ContextCache E) : ContextCache E :=
  ⟨[], [], [], []⟩

/-- One operation against a `ContextCache` instance. -/
inductive CacheOp where
  | get (chunk : String)
  | clearAll
  deriving DecidableEq

/-- Step of the chunk-cache state machine. -/
def stepCache {E : Type} (cfg : ChunkCfg E) (st : ContextCache E) :
    CacheOp → ContextCache E
  | CacheOp.get c => (getChunk cfg st c).2.1
  | CacheOp.clearAll => clearCaches st

/-- Run a sequence of operations. -/
def runCache {E : Type} (cfg : ChunkCfg E) (ops : List CacheOp)
    (st : ContextCache E) : ContextCache E :=
  ops.foldl (stepCache cfg) st

/-- One row of the `response_cache` table.  `P` is the payload type
(`response_data`, an opaque blob to the cache). -/
structure CacheRow (P : Type) where
  queryHash : String
  queryText : String
  responseData : P
  createdAt : Nat
  lastAccessed : Nat
  expiresAt : Nat
  hitCount : Nat
  deriving DecidableEq, Repr

/-- The `response_cache` table: a list of rows (the primary key makes the
hash unique; theorems carry that as a hypothesis where needed). -/
abbrev Store (P : Type) : Type := List (CacheRow P)

/-- The cache key: `hashlib.sha256(query.lower().encode()).hexdigest()`,
with the digest itself abstract. -/
def queryKey (digest : String → String) (q : String) : String :=
  digest q.toLower

/-- First row stored under a hash, ignoring expiry. -/
def lookupRow {P : Type} (key : String) (s : Store P) : Option (CacheRow P) :=
  s.find? (fun r => r.queryHash == key)

/-- Value of `hit_count` for the row under `key` (0 when absent). -/
def hcOf {P : Type} (key : String) (s : Store P) : Nat :=
  ((lookupRow key s).map (fun r => r.hitCount)).getD 0

/-- Value of `expires_at` for the row under `key` (0 when absent). -/
def expOf {P : Type} (key : String) (s : Store P) : Nat :=
  ((lookupRow key s).map (fun r => r.expiresAt)).getD 0

/-- Number of rows stored under `key`. -/
def countKey {P : Type} (key : String) (s : Store P) : Nat :=
  (s.filter (fun r => r.queryHash == key)).length

/-- Modelled from the spec: the `response_cache` DDL is not in the
repository; the INSERT in `cache_response` names neither `hit_count` nor
`expires_at`, so both come from table defaults.  The spec fixes the insert
default `hit_count = 1` (the initiating write counts as the first hit). -/
def defaultHitCount : Nat := 1

/-- Modelled from the spec: the table default for `expires_at` is the write
time plus the fixed TTL (the spec's fixed TTL policy; DDL absent from the
repository). -/
def defaultExpiresAt (ttl now : Nat) : Nat := now + ttl

/-- The single SQL statement of `cache_response` (lines 216–225):
`INSERT ... ON CONFLICT (query_hash) DO UPDATE SET response_data = EXCLUDED.response_data,
hit_count = response_cache.hit_count + 1, last_accessed = CURRENT_TIMESTAMP`.
On conflict neither `created_at` nor `expires_at` is touched; on insert the
explicit columns are set and `hit_count`/`expires_at` take their defaults. -/
def upsertStore {P : Type} (ttl now : Nat) (key qt : String) (p : P)
    (s : Store P) : Store P :=
  if s.any (fun r => r.queryHash == key) then
    s.map (fun r =>
      if r.queryHash == key then
        { r with responseData := p, hitCount := r.hitCount + 1,
                 lastAccessed := now }
      else r)
  else
    ⟨key, qt, p, now, now, defaultExpiresAt ttl now, defaultHitCount⟩ :: s

/-- The `UPDATE response_cache SET hit_count = hit_count + 1, last_accessed =
CURRENT_TIMESTAMP WHERE query_hash = $1` statement of `get_cached_response`
(no expiry guard in its WHERE clause). -/
def bumpHit {P : Type} (now : Nat) (key : String) (s : Store P) : Store P :=
  s.map (fun r =>
    if r.queryHash == key then
      { r with hitCount := r.hitCount + 1, lastAccessed := now }
    else r)

/-- The `SELECT response_data FROM response_cache WHERE query_hash = $1 AND
expires_at > CURRENT_TIMESTAMP` of `get_cached_response`, at time `t`. -/
def selectFresh {P : Type} (t : Nat) (key : String) (s : Store P) :
    Option (CacheRow P) :=
  s.find? (fun r => r.queryHash == key && decide (t < r.expiresAt))

/-- Whether a modelled store primitive raised. -/
def exceptFailed {A : Type} : Except String A → Bool
  | Except.error _ => true
  | Except.ok _ => false

/-- Model of `PostgreSQLService.get_cached_response` (lines 184–208), with the
fallible primitives explicit: `acq` is the pool acquisition inside
`get_connection`, `fetch` the SELECT, `bump` the UPDATE; any raised exception
is caught by the enclosing `try/except` and the function returns `None` (the
store is left as it was at the failure point).  `tSel` and `tUpd` are the two
statements' `CURRENT_TIMESTAMP` values.  The payload returned on a hit is the
one read by the SELECT. -/
def getCachedResponseF {P : Type} (acq fetch bump : Except String Unit)
    (digest : String → String) (tSel tUpd : Nat) (q : String) (s : Store P) :
    Option P × Store P :=
  match acq with
  | Except.error _ => (none, s)
  | Except.ok _ =>
    match fetch with
    | Except.error _ => (none, s)
    | Except.ok _ =>
      let key := queryKey digest q
      match selectFresh tSel key s with
      | none => (none, s)
      | some r =>
        match bump with
        | Except.error _ => (none, s)
        | Except.ok _ => (some r.responseData, bumpHit tUpd key s)

/-- Specialisation of `get_cached_response` to the failure-free path. -/
def getCachedResponse {P : Type} (digest : String → String) (tSel tUpd : Nat)
    (q : String) (s : Store P) : Option P × Store P :=
  getCachedResponseF (Except.ok ()) (Except.ok ()) (Except.ok ())
    digest tSel tUpd q s

/-- Model of `PostgreSQLService.cache_response` (lines 210–230) with fallible
primitives explicit: `acq` the pool acquisition, `exec` the upsert statement;
any exception is caught and `False` is returned. -/
def cacheResponseF {P : Type} (acq exec : Except String Unit)
    (digest : String → String) (ttl now : Nat) (q : String) (p : P)
    (s : Store P) : Bool × Store P :=
  match acq with
  | Except.error _ => (false, s)
  | Except.ok _ =>
    match exec with
    | Except.error _ => (false, s)
    | Except.ok _ => (true, upsertStore ttl now (queryKey digest q) q p s)

/-- Specialisation of `cache_response` to the failure-free path. -/
def cacheResponse {P : Type} (digest : String → String) (ttl now : Nat)
    (q : String) (p : P) (s : Store P) : Bool × Store P :=
  cacheResponseF (Except.ok ()) (Except.ok ()) digest ttl now q p s

/-- One atomic SQL statement against `response_cache`, with its
`CURRENT_TIMESTAMP` value baked in.  The database executes each statement
atomically; concurrency is interleaving at statement granularity. -/
inductive CacheStmt (P : Type) where
  | selectS (t : Nat) (key : String)
  | bumpS (t : Nat) (key : String)
  | upsertS (t : Nat) (key qt : String) (p : P)
  deriving DecidableEq

/-- Effect of one atomic statement on the table (a SELECT writes nothing). -/
def applyStmt {P : Type} (ttl : Nat) : CacheStmt P → Store P → Store P
  | CacheStmt.selectS _ _, s => s
  | CacheStmt.bumpS t key, s => bumpHit t key s
  | CacheStmt.upsertS t key qt p, s => upsertStore ttl t key qt p s

/-- Run a schedule of atomic statements. -/
def runStmts {P : Type} (ttl : Nat) (l : List (CacheStmt P)) (s : Store P) :
    Store P :=
  l.foldl (fun st stm => applyStmt ttl stm st) s

/-- The statements `cache_response` issues: exactly one (the upsert). -/
def cacheResponseStmts {P : Type} (t : Nat) (key qt : String) (p : P) :
    List (CacheStmt P) :=
  [CacheStmt.upsertS t key qt p]

/-- The statements `get_cached_response` issues on its hit path: the SELECT,
then a second, separate UPDATE. -/
def getHitPathStmts (P : Type) (tSel tUpd : Nat) (key : String) :
    List (CacheStmt P) :=
  [CacheStmt.selectS tSel key, CacheStmt.bumpS tUpd key]

/-- Structural worker for `interleavings`; the fuel argument makes the
double recursion structural (it is always called with enough fuel). -/
def interleavingsAux {α : Type} : Nat → List α → List α → List (List α)
  | 0, xs, ys => [xs ++ ys]
  | _ + 1, [], ys => [ys]
  | _ + 1, x :: xs, [] => [x :: xs]
  | n + 1, x :: xs, y :: ys =>
      (interleavingsAux n xs (y :: ys)).map (fun l => x :: l) ++
      (interleavingsAux n (x :: xs) ys).map (fun l => y :: l)

/-- All interleavings of two statement sequences (the schedules two
concurrent callers can produce). -/
def interleavings {α : Type} (xs ys : List α) : List (List α) :=
  interleavingsAux (xs.length + ys.length) xs ys

/-- A completed worker-thread future: `concurrent.futures` stores the
callable's outcome — value or raised exception — in the future. -/
structure WorkerFuture (E A : Type) where
  outcome : Except E A

/-- Model of `asyncio.run(coro)` on the worker thread: starts a fresh event loop,
drives the coroutine to completion, returns its value or lets its exception
propagate to the thread.  `Except E A` is the coroutine's outcome. -/
def asyncioRun {E A : Type} (coro : Except E A) : Except E A := coro

/-- Model of `executor.submit(asyncio.run, coro)`: the worker runs the coroutine and
the future captures its outcome (an exception is stored, not swallowed). -/
def submitWorker {E A : Type} (coro : Except E A) : WorkerFuture E A :=
  ⟨asyncioRun coro⟩

/-- Model of `future.result()`: returns the stored value, or re-raises the stored
exception to the calling thread. -/
def futureResult {E A : Type} (f : WorkerFuture E A) : Except E A :=
  f.outcome

/-- Model of `self.loop.run_until_complete(coro)`: drives the coroutine directly on
the calling thread; returns its value or propagates its failure. -/
def runUntilComplete {E A : Type} (coro : Except E A) : Except E A := coro

/-- Model of `DatabaseWrapper._run_async` (src/services/database_wrapper.py lines
27–36): if the loop is not running, drive the coroutine directly; otherwise
submit it to a worker thread running `asyncio.run` and block on the future's
result. -/
def runAsyncBridge {E A : Type} (loopRunning : Bool) (coro : Except E A) :
    Except E A :=
  if loopRunning then futureResult (submitWorker coro)
  else runUntilComplete coro

/-- Concrete model instance for evaluation: unit embeddings, constant
similarity 1, threshold 0 (every semantic comparison is a hit), identity
digest. -/
def demoCfg : ChunkCfg Unit := ⟨fun _ => (), fun _ _ => 1, 0, fun s => s⟩

/-- Concrete model instance whose semantic comparisons never hit
(similarity 0, threshold 1), identity digest. -/
def demoCfgNoSem : ChunkCfg Unit := ⟨fun _ => (), fun _ _ => 0, 1, fun s => s⟩

/-- Concrete chunk-cache state holding one semantic entry and an empty exact
index. -/
def demoSem : ContextCache Unit := ⟨[], [((), "stored")], [], [((), "stored")]⟩

/-- Concrete chunk-cache state with one exact binding. -/
def demoExact : ContextCache Unit :=
  ⟨[("h0", "t0")], [], [("h0", "t0")], []⟩

/-- Constant digest used in concrete store instances (the digest is a model
parameter; a constant keeps kernel evaluation independent of `toLower`). -/
def demoDigest : String → String := fun _ => "k"

/-- Concrete one-row store: key "k", payload 7, expires at 5, hit count 3. -/
def demoStore : Store Nat := [⟨"k", "q", 7, 0, 0, 5, 3⟩]

/-! Helper lemmas about the response-cache store model. -/

theorem lookupRow_some_beq {P : Type} {key : String} {s : Store P}
    {r : CacheRow P} (h : lookupRow key s = some r) :
    (r.queryHash == key) = true := by
  unfold lookupRow at h
  have h2 := List.find?_some h
  exact h2

theorem lookupRow_some_mem {P : Type} {key : String} {s : Store P}
    {r : CacheRow P} (h : lookupRow key s = some r) : r ∈ s := by
  unfold lookupRow at h
  exact List.mem_of_find?_eq_some h

theorem lookupRow_map_preserve {P : Type} (key : String) (s : Store P)
    (f : CacheRow P → CacheRow P) (hf : ∀ r, (f r).queryHash = r.queryHash) :
    lookupRow key (s.map f) = (lookupRow key s).map f := by
  have hpred : ((fun r : CacheRow P => r.queryHash == key) ∘ f) =
      (fun r : CacheRow P => r.queryHash == key) := by
    funext r
    simp [Function.comp, hf r]
  unfold lookupRow
  rw [List.find?_map, hpred]

theorem lookupRow_bumpHit {P : Type} (t : Nat) (key : String) (s : Store P) :
    lookupRow key (bumpHit t key s) = (lookupRow key s).map
      (fun r => { r with hitCount := r.hitCount + 1, lastAccessed := t }) := by
  unfold bumpHit
  rw [lookupRow_map_preserve _ _ _ (by intro r; by_cases hx : (r.queryHash == key) = true <;> simp [hx])]
  cases hlr : lookupRow key s with
  | none => rfl
  | some r =>
    have hq : r.queryHash = key := by simpa using lookupRow_some_beq hlr
    simp [hq]

theorem hcOf_bumpHit_some {P : Type} (t : Nat) (key : String) (s : Store P)
    (h : (lookupRow key s).isSome = true) :
    hcOf key (bumpHit t key s) = hcOf key s + 1 := by
  unfold hcOf
  rw [lookupRow_bumpHit]
  cases hlr : lookupRow key s with
  | none => rw [hlr] at h; simp at h
  | some r => simp

theorem lookupRow_bumpHit_isSome {P : Type} (t : Nat) (key : String)
    (s : Store P) :
    (lookupRow key (bumpHit t key s)).isSome = (lookupRow key s).isSome := by
  rw [lookupRow_bumpHit]
  cases lookupRow key s <;> simp

theorem upsertStore_not_found {P : Type} (ttl now : Nat) (key qt : String)
    (p : P) (s : Store P) (h : lookupRow key s = none) :
    upsertStore ttl now key qt p s =
      ⟨key, qt, p, now, now, defaultExpiresAt ttl now, defaultHitCount⟩ :: s := by
  have hall : ∀ x ∈ s, ¬ (x.queryHash == key) = true := by
    rw [← List.find?_eq_none]
    exact h
  have hc : ¬ (s.any (fun r => r.queryHash == key) = true) := by
    intro hany
    rw [List.any_eq_true] at hany
    obtain ⟨x, hx, hpx⟩ := hany
    exact hall x hx hpx
  unfold upsertStore
  rw [if_neg hc]

theorem upsertStore_found {P : Type} (ttl now : Nat) (key qt : String) (p : P)
    (s : Store P) (r : CacheRow P) (h : lookupRow key s = some r) :
    upsertStore ttl now key qt p s = s.map (fun x =>
      if x.queryHash == key then
        { x with responseData := p, hitCount := x.hitCount + 1,
                 lastAccessed := now }
      else x) := by
  have hmem : r ∈ s := lookupRow_some_mem h
  have hp : (r.queryHash == key) = true := lookupRow_some_beq h
  have hc : s.any (fun x => x.queryHash == key) = true := by
    rw [List.any_eq_true]
    exact ⟨r, hmem, hp⟩
  unfold upsertStore
  rw [if_pos hc]

theorem lookupRow_upsert {P : Type} (ttl now : Nat) (key qt : String) (p : P)
    (s : Store P) :
    lookupRow key (upsertStore ttl now key qt p s) =
      some (match lookupRow key s with
        | none => ⟨key, qt, p, now, now, defaultExpiresAt ttl now,
                   defaultHitCount⟩
        | some r => { r with responseData := p, hitCount := r.hitCount + 1,
                             lastAccessed := now }) := by
  cases hlr : lookupRow key s with
  | none =>
    rw [upsertStore_not_found _ _ _ _ _ _ hlr]
    unfold lookupRow
    rw [List.find?_cons_of_pos _ (by simp)]
  | some r =>
    rw [upsertStore_found _ _ _ _ _ _ _ hlr]
    rw [lookupRow_map_preserve _ _ _ (by intro x; by_cases hx : (x.queryHash == key) = true <;> simp [hx])]
    rw [hlr]
    have hp : r.queryHash = key := by simpa using lookupRow_some_beq hlr
    simp [hp]

theorem hcOf_upsert {P : Type} (ttl now : Nat) (key qt : String) (p : P)
    (s : Store P) :
    hcOf key (upsertStore ttl now key qt p s) = hcOf key s + 1 := by
  unfold hcOf
  rw [lookupRow_upsert]
  cases hlr : lookupRow key s <;> simp [defaultHitCount]

theorem expOf_upsert {P : Type} (ttl now : Nat) (key qt : String) (p : P)
    (s : Store P) :
    expOf key (upsertStore ttl now key qt p s) =
      (match lookupRow key s with
       | none => defaultExpiresAt ttl now
       | some r => r.expiresAt) := by
  unfold expOf
  rw [lookupRow_upsert]
  cases hlr : lookupRow key s <;> simp

theorem dataOf_upsert {P : Type} (ttl now : Nat) (key qt : String) (p : P)
    (s : Store P) :
    (lookupRow key (upsertStore ttl now key qt p s)).map
      (fun r => r.responseData) = some p := by
  rw [lookupRow_upsert]
  cases lookupRow key s <;> simp

theorem lookupRow_upsert_isSome {P : Type} (ttl now : Nat) (key qt : String)
    (p : P) (s : Store P) :
    (lookupRow key (upsertStore ttl now key qt p s)).isSome = true := by
  rw [lookupRow_upsert]
  rfl

theorem countKey_upsert {P : Type} (ttl now : Nat) (key qt : String) (p : P)
    (s : Store P) (hpk : countKey key s ≤ 1) :
    countKey key (upsertStore ttl now key qt p s) = 1 := by
  cases hlr : lookupRow key s with
  | none =>
    rw [upsertStore_not_found _ _ _ _ _ _ hlr]
    unfold countKey
    rw [List.filter_cons_of_pos (by simp)]
    have hnil : s.filter (fun r => r.queryHash == key) = [] := by
      rw [List.filter_eq_nil_iff]
      unfold lookupRow at hlr
      rw [List.find?_eq_none] at hlr
      exact hlr
    simp [hnil]
  | some r =>
    rw [upsertStore_found _ _ _ _ _ _ _ hlr]
    unfold countKey
    rw [List.filter_map]
    have hpf : ((fun x : CacheRow P => x.queryHash == key) ∘ (fun x =>
        if x.queryHash == key then
          { x with responseData := p, hitCount := x.hitCount + 1,
                   lastAccessed := now }
        else x)) = (fun x : CacheRow P => x.queryHash == key) := by
      funext x
      by_cases hx : (x.queryHash == key) = true <;> simp [Function.comp, hx]
    rw [hpf, List.length_map]
    have hmem : r ∈ s.filter (fun x => x.queryHash == key) :=
      List.mem_filter.2 ⟨lookupRow_some_mem hlr, lookupRow_some_beq hlr⟩
    have hpos : 0 < (s.filter (fun x => x.queryHash == key)).length :=
      List.length_pos.2 (List.ne_nil_of_mem hmem)
    unfold countKey at hpk
    omega

theorem selectFresh_of_lookup {P : Type} (t : Nat) (key : String)
    (s : Store P) (r : CacheRow P) (h : lookupRow key s = some r)
    (hf : t < r.expiresAt) :
    selectFresh t key s = some r := by
  induction s with
  | nil => simp [lookupRow] at h
  | cons a l ih =>
    by_cases ha : (a.queryHash == key) = true
    · have hla : lookupRow key (a :: l) = some a := by
        unfold lookupRow
        exact List.find?_cons_of_pos _ ha
      rw [hla] at h
      obtain rfl : a = r := Option.some.inj h
      unfold selectFresh
      rw [List.find?_cons_of_pos _ (by simp [ha, hf])]
    · have hla : lookupRow key (a :: l) = lookupRow key l := by
        unfold lookupRow
        exact List.find?_cons_of_neg _ ha
      rw [hla] at h
      unfold selectFresh
      rw [List.find?_cons_of_neg _ (by simp [ha])]
      exact ih h

theorem selectFresh_none_of_expired {P : Type} (t : Nat) (key : String)
    (s : Store P) (hexp : ∀ r ∈ s, r.queryHash = key → r.expiresAt < t) :
    selectFresh t key s = none := by
  unfold selectFresh
  rw [List.find?_eq_none]
  intro x hx
  by_cases hq : (x.queryHash == key) = true
  · have hlt := hexp x hx (by simpa using hq)
    simp [hq]
    omega
  · simp [hq]

theorem selectFresh_some_beq {P : Type} {t : Nat} {key : String}
    {s : Store P} {r : CacheRow P} (h : selectFresh t key s = some r) :
    (r.queryHash == key) = true ∧ t < r.expiresAt := by
  unfold selectFresh at h
  have h2 := List.find?_some h
  simpa using h2

theorem selectFresh_some_mem {P : Type} {t : Nat} {key : String}
    {s : Store P} {r : CacheRow P} (h : selectFresh t key s = some r) :
    r ∈ s := by
  unfold selectFresh at h
  exact List.mem_of_find?_eq_some h

/-! Helper lemmas about the chunk-cache model. -/

theorem lookupExact_cons_self (h c : String) (ec : List (String × String)) :
    lookupExact h ((h, c) :: ec) = some c := by
  unfold lookupExact
  rw [List.find?_cons_of_pos _ (by simp)]
  rfl

theorem lookupExact_cons_ne (h g c : String) (ec : List (String × String))
    (hne : g ≠ h) :
    lookupExact h ((g, c) :: ec) = lookupExact h ec := by
  unfold lookupExact
  rw [List.find?_cons_of_neg _ (by simp [hne])]

theorem not_mem_keys_of_lookupExact_none (h : String)
    (ec : List (String × String)) (hl : lookupExact h ec = none) :
    h ∉ ec.map Prod.fst := by
  unfold lookupExact at hl
  cases hf : ec.find? (fun p => p.1 == h) with
  | some p => rw [hf] at hl; simp at hl
  | none =>
    rw [List.find?_eq_none] at hf
    intro hm
    rw [List.mem_map] at hm
    obtain ⟨p, hp, he⟩ := hm
    exact hf p hp (by simp [he])

theorem getChunk_exact {E : Type} (cfg : ChunkCfg E) (st : ContextCache E)
    (c txt : String) (h : lookupExact (cfg.digest c) st.exactCache = some txt) :
    getChunk cfg st c = (txt, st, ChunkHit.exactHit) := by
  simp only [getChunk]
  rw [h]

theorem getChunk_sem {E : Type} (cfg : ChunkCfg E) (st : ContextCache E)
    (c txt : String) (h1 : lookupExact (cfg.digest c) st.exactCache = none)
    (h2 : semScan cfg (cfg.encode c) st.semCache = some txt) :
    getChunk cfg st c = (txt, st, ChunkHit.semHit) := by
  simp only [getChunk]
  rw [h1, h2]

theorem getChunk_miss {E : Type} (cfg : ChunkCfg E) (st : ContextCache E)
    (c : String) (h1 : lookupExact (cfg.digest c) st.exactCache = none)
    (h2 : semScan cfg (cfg.encode c) st.semCache = none) :
    getChunk cfg st c =
      (c, ⟨(cfg.digest c, c) :: st.exactCache,
           st.semCache ++ [(cfg.encode c, c)],
           (cfg.digest c, c) :: st.exactCache,
           st.semCache ++ [(cfg.encode c, c)]⟩, ChunkHit.cacheMiss) := by
  simp only [getChunk]
  rw [h1, h2]

theorem stepCache_get_preserves {E : Type} (cfg : ChunkCfg E)
    (st : ContextCache E) (c h t : String)
    (hl : lookupExact h st.exactCache = some t) :
    lookupExact h (stepCache cfg st (CacheOp.get c)).exactCache = some t := by
  simp only [stepCache]
  cases hlk : lookupExact (cfg.digest c) st.exactCache with
  | some txt =>
    rw [getChunk_exact cfg st c txt hlk]
    exact hl
  | none =>
    cases hsc : semScan cfg (cfg.encode c) st.semCache with
    | some txt =>
      rw [getChunk_sem cfg st c txt hlk hsc]
      exact hl
    | none =>
      rw [getChunk_miss cfg st c hlk hsc]
      by_cases he : cfg.digest c = h
      · rw [he] at hlk
        rw [hlk] at hl
        cases hl
      · show lookupExact h ((cfg.digest c, c) :: st.exactCache) = some t
        rw [lookupExact_cons_ne _ _ _ _ he]
        exact hl

theorem stepCache_nodup {E : Type} (cfg : ChunkCfg E) (op : CacheOp)
    (st : ContextCache E) (hnd : (st.exactCache.map Prod.fst).Nodup) :
    ((stepCache cfg st op).exactCache.map Prod.fst).Nodup := by
  cases op with
  | clearAll => simp [stepCache, clearCaches]
  | get c =>
    simp only [stepCache]
    cases hlk : lookupExact (cfg.digest c) st.exactCache with
    | some txt =>
      rw [getChunk_exact cfg st c txt hlk]
      exact hnd
    | none =>
      cases hsc : semScan cfg (cfg.encode c) st.semCache with
      | some txt =>
        rw [getChunk_sem cfg st c txt hlk hsc]
        exact hnd
      | none =>
        rw [getChunk_miss cfg st c hlk hsc]
        show (((cfg.digest c, c) :: st.exactCache).map Prod.fst).Nodup
        rw [List.map_cons, List.nodup_cons]
        exact ⟨not_mem_keys_of_lookupExact_none _ _ hlk, hnd⟩

theorem runCache_cons {E : Type} (cfg : ChunkCfg E) (op : CacheOp)
    (ops : List CacheOp) (st : ContextCache E) :
    runCache cfg (op :: ops) st = runCache cfg ops (stepCache cfg st op) := rfl

/-- C2 (amended): for every configuration, cache state and chunk, two
consecutive `get_chunk` calls on the same chunk return the same text; the
second call is an exact hit when the first call was an exact hit or a miss,
but after a semantic hit the chunk is not registered under its hash, so the
second call takes the semantic path again (recomputing the embedding) — it
does not take the exact-match path. -/
theorem spec_c2_resolve_twice {E : Type} (cfg : ChunkCfg E)
    (st : ContextCache E) (c : String) :
    (getChunk cfg (getChunk cfg st c).2.1 c).1 = (getChunk cfg st c).1 ∧
    (getChunk cfg (getChunk cfg st c).2.1 c).2.2 =
      (match (getChunk cfg st c).2.2 with
       | ChunkHit.exactHit => ChunkHit.exactHit
       | ChunkHit.semHit => ChunkHit.semHit
       | ChunkHit.cacheMiss => ChunkHit.exactHit) := by
  cases hlk : lookupExact (cfg.digest c) st.exactCache with
  | some txt =>
    simp [getChunk_exact cfg st c txt hlk]
  | none =>
    cases hsc : semScan cfg (cfg.encode c) st.semCache with
    | some txt =>
      simp [getChunk_sem cfg st c txt hlk hsc]
    | none =>
      have h2 := getChunk_exact cfg
        ⟨(cfg.digest c, c) :: st.exactCache, st.semCache ++ [(cfg.encode c, c)],
         (cfg.digest c, c) :: st.exactCache, st.semCache ++ [(cfg.encode c, c)]⟩
        c c (lookupExact_cons_self _ _ _)
      simp [getChunk_miss cfg st c hlk hsc, h2]

/-- C2 (counterexample): starting from a state whose semantic index holds an
entry similar to chunk "c" while the exact index is empty, both calls return
the stored text, but the second call resolves via the semantic path, not the
exact-match path — refuting the claim that the second call is always an
exact hit. -/
theorem spec_c2_counterexample :
    (getChunk demoCfg (getChunk demoCfg demoSem "c").2.1 "c").1 =
      (getChunk demoCfg demoSem "c").1 ∧
    (getChunk demoCfg (getChunk demoCfg demoSem "c").2.1 "c").2.2 =
      ChunkHit.semHit ∧
    ¬ ((getChunk demoCfg (getChunk demoCfg demoSem "c").2.1 "c").2.2 =
      ChunkHit.exactHit) := by decide

/-- C9: across every sequence of `get_chunk` / `clear_caches` operations the
exact index keeps at most one entry per hash (its key list stays free of
duplicates), and a binding present at the start of a clear-free run is still
present, unchanged, at the end: entries are immutable after insertion and
only a full clear removes them. -/
theorem spec_c9_exact_index_invariant {E : Type} (cfg : ChunkCfg E)
    (ops : List CacheOp) (st : ContextCache E) :
    ((st.exactCache.map Prod.fst).Nodup →
       ((runCache cfg ops st).exactCache.map Prod.fst).Nodup) ∧
    (∀ h t, lookupExact h st.exactCache = some t → CacheOp.clearAll ∉ ops →
       lookupExact h (runCache cfg ops st).exactCache = some t) := by
  induction ops generalizing st with
  | nil => exact ⟨fun hnd => hnd, fun h t hl _ => hl⟩
  | cons op rest ih =>
    constructor
    · intro hnd
      rw [runCache_cons]
      exact (ih (stepCache cfg st op)).1 (stepCache_nodup cfg op st hnd)
    · intro h t hl hnc
      rw [runCache_cons]
      have hop : op ≠ CacheOp.clearAll := by
        intro he
        exact hnc (by rw [he]; exact List.mem_cons_self _ _)
      have hrest : CacheOp.clearAll ∉ rest := fun hm =>
        hnc (List.mem_cons_of_mem _ hm)
      cases op with
      | clearAll => exact absurd rfl hop
      | get c =>
        exact (ih (stepCache cfg st (CacheOp.get c))).2 h t
          (stepCache_get_preserves cfg st c h t hl) hrest

/-- Witness for C9 at a concrete run: one lookup-miss operation on a state
holding the binding ("h0", "t0") keeps the key list duplicate-free and keeps
the binding intact. -/
theorem spec_c9_witness :
    ((runCache demoCfgNoSem [CacheOp.get "c"] demoExact).exactCache.map
      Prod.fst).Nodup ∧
    lookupExact "h0"
      (runCache demoCfgNoSem [CacheOp.get "c"] demoExact).exactCache =
      some "t0" :=
  ⟨(spec_c9_exact_index_invariant demoCfgNoSem [CacheOp.get "c"]
      demoExact).1 (by decide),
   (spec_c9_exact_index_invariant demoCfgNoSem [CacheOp.get "c"]
      demoExact).2 "h0" "t0" (by decide) (by decide)⟩

/-- C10: whenever `get_chunk` returns via a hit (exact or semantic), the
whole cache state — both in-memory indexes and both persisted files — is
returned unchanged; and in the semantic-hit case the chunk's own hash is
absent from the exact index, so the same chunk will be re-embedded and
re-scanned on every future lookup. -/
theorem spec_c10_hit_leaves_state_unchanged {E : Type} (cfg : ChunkCfg E)
    (st : ContextCache E) (c : String)
    (hhit : (getChunk cfg st c).2.2 ≠ ChunkHit.cacheMiss) :
    (getChunk cfg st c).2.1 = st ∧
    ((getChunk cfg st c).2.2 = ChunkHit.semHit →
       lookupExact (cfg.digest c) st.exactCache = none) := by
  cases hlk : lookupExact (cfg.digest c) st.exactCache with
  | some txt =>
    rw [getChunk_exact cfg st c txt hlk]
    exact ⟨rfl, fun hsem => by simp at hsem⟩
  | none =>
    cases hsc : semScan cfg (cfg.encode c) st.semCache with
    | some txt =>
      rw [getChunk_sem cfg st c txt hlk hsc]
      exact ⟨rfl, fun _ => rfl⟩
    | none =>
      rw [getChunk_miss cfg st c hlk hsc] at hhit
      exact absurd rfl hhit

/-- Witness for C10 at a concrete semantic hit: the state is unchanged and
the chunk's hash is absent from the exact index. -/
theorem spec_c10_witness :
    (getChunk demoCfg demoSem "c").2.1 = demoSem ∧
    lookupExact (demoCfg.digest "c") demoSem.exactCache = none :=
  ⟨(spec_c10_hit_leaves_state_unchanged demoCfg demoSem "c" (by decide)).1,
   (spec_c10_hit_leaves_state_unchanged demoCfg demoSem "c"
      (by decide)).2 (by decide)⟩

theorem getCachedResponse_hit {P : Type} (digest : String → String)
    (tSel tUpd : Nat) (q : String) (s : Store P) (r : CacheRow P)
    (hsel : selectFresh tSel (queryKey digest q) s = some r) :
    getCachedResponse digest tSel tUpd q s =
      (some r.responseData, bumpHit tUpd (queryKey digest q) s) := by
  simp only [getCachedResponse, getCachedResponseF]
  rw [hsel]

theorem getCachedResponse_miss {P : Type} (digest : String → String)
    (tSel tUpd : Nat) (q : String) (s : Store P)
    (hsel : selectFresh tSel (queryKey digest q) s = none) :
    getCachedResponse digest tSel tUpd q s = (none, s) := by
  simp only [getCachedResponse, getCachedResponseF]
  rw [hsel]

theorem hcOf_two_bumps {P : Type} (t t2 : Nat) (key : String) (s : Store P)
    (h : (lookupRow key s).isSome = true) :
    hcOf key (bumpHit t key (bumpHit t2 key s)) = hcOf key s + 2 := by
  have h2 : (lookupRow key (bumpHit t2 key s)).isSome = true := by
    rw [lookupRow_bumpHit_isSome]
    exact h
  rw [hcOf_bumpHit_some _ _ _ h2, hcOf_bumpHit_some _ _ _ h]

/-- C1: writing a payload with `cache_response` and then reading the same
query with `get_cached_response`, at a read time earlier than the stored
row's `expires_at`, returns exactly the written payload, and the row's
`hit_count` after the round trip is at least one greater than before it
(the insert default `hit_count = 1` is modelled from the spec, the DDL being
absent from the repository). -/
theorem spec_c1_put_then_get {P : Type} (digest : String → String)
    (ttl t1 tSel tUpd : Nat) (q : String) (p : P) (s : Store P)
    (hfresh : tSel <
      expOf (queryKey digest q) (cacheResponse digest ttl t1 q p s).2) :
    (getCachedResponse digest tSel tUpd q
       (cacheResponse digest ttl t1 q p s).2).1 = some p ∧
    hcOf (queryKey digest q)
        (getCachedResponse digest tSel tUpd q
          (cacheResponse digest ttl t1 q p s).2).2 ≥
      hcOf (queryKey digest q) s + 1 := by
  have hs1 : (cacheResponse digest ttl t1 q p s).2 =
      upsertStore ttl t1 (queryKey digest q) q p s := rfl
  rw [hs1] at hfresh ⊢
  have hlr := lookupRow_upsert ttl t1 (queryKey digest q) q p s
  have hexp : expOf (queryKey digest q)
      (upsertStore ttl t1 (queryKey digest q) q p s) =
      (match lookupRow (queryKey digest q) s with
       | none => defaultExpiresAt ttl t1
       | some r => r.expiresAt) := expOf_upsert ttl t1 (queryKey digest q) q p s
  cases hl0 : lookupRow (queryKey digest q) s with
  | none =>
    rw [hl0] at hlr
    have hsel := selectFresh_of_lookup tSel (queryKey digest q) _ _ hlr
      (by rw [hexp, hl0] at hfresh; exact hfresh)
    rw [getCachedResponse_hit digest tSel tUpd q _ _ hsel]
    constructor
    · rfl
    · have hbump := hcOf_bumpHit_some tUpd (queryKey digest q)
        (upsertStore ttl t1 (queryKey digest q) q p s)
        (by rw [hlr]; rfl)
      have hcup := hcOf_upsert ttl t1 (queryKey digest q) q p s
      have hc0 : hcOf (queryKey digest q) s = 0 := by
        unfold hcOf
        rw [hl0]
        rfl
      simp only []
      omega
  | some r0 =>
    rw [hl0] at hlr
    have hsel := selectFresh_of_lookup tSel (queryKey digest q) _ _ hlr
      (by rw [hexp, hl0] at hfresh; exact hfresh)
    rw [getCachedResponse_hit digest tSel tUpd q _ _ hsel]
    constructor
    · rfl
    · have hbump := hcOf_bumpHit_some tUpd (queryKey digest q)
        (upsertStore ttl t1 (queryKey digest q) q p s)
        (by rw [hlr]; rfl)
      have hcup := hcOf_upsert ttl t1 (queryKey digest q) q p s
      simp only []
      omega

/-- Witness for C1: caching payload 7 for query "Q" in an empty store and
reading it back at time 5 (before the fresh expiry) yields 7 and a hit count
one above the pre-call store. -/
theorem spec_c1_witness :
    (5 < expOf (queryKey demoDigest "Q")
       (cacheResponse demoDigest 10 0 "Q" 7 ([] : Store Nat)).2) ∧
    ((getCachedResponse demoDigest 5 6 "Q"
        (cacheResponse demoDigest 10 0 "Q" 7 ([] : Store Nat)).2).1 =
      some 7 ∧
     hcOf (queryKey demoDigest "Q")
         (getCachedResponse demoDigest 5 6 "Q"
           (cacheResponse demoDigest 10 0 "Q" 7 ([] : Store Nat)).2).2 ≥
       hcOf (queryKey demoDigest "Q") ([] : Store Nat) + 1) :=
  ⟨by decide, spec_c1_put_then_get demoDigest 10 0 5 6 "Q" 7 [] (by decide)⟩

/-- C5: reading a query whose stored row has `expires_at` in the past
reports a miss (`None`) and leaves the store byte-for-byte unchanged: no
`hit_count` increment, and the expired row is not deleted. -/
theorem spec_c5_expired_entry_is_miss {P : Type} (digest : String → String)
    (tSel tUpd : Nat) (q : String) (s : Store P)
    (hex : (lookupRow (queryKey digest q) s).isSome = true)
    (hexp : ∀ r ∈ s, r.queryHash = queryKey digest q → r.expiresAt < tSel) :
    getCachedResponse digest tSel tUpd q s = (none, s) := by
  exact getCachedResponse_miss digest tSel tUpd q s
    (selectFresh_none_of_expired tSel (queryKey digest q) s hexp)

/-- Witness for C5 at a concrete store: a row expiring at 5 read at time 9
returns no payload and the store is unchanged. -/
theorem spec_c5_witness :
    (lookupRow (queryKey demoDigest "Q") demoStore).isSome = true ∧
    getCachedResponse demoDigest 9 9 "Q" demoStore = (none, demoStore) :=
  ⟨by decide, spec_c5_expired_entry_is_miss demoDigest 9 9 "Q" demoStore
    (by decide) (by decide)⟩

/-- C6 (counterexample): overwriting the expired row of `demoStore`
(`expires_at = 5`) at write time 10 with TTL 3600 leaves `expires_at` at 5 —
the conflict branch of the upsert does not recompute `expires_at`, so not
every write derives it at write time. -/
theorem spec_c6_counterexample :
    expOf (queryKey demoDigest "Q")
      (cacheResponse demoDigest 3600 10 "Q" 9 demoStore).2 = 5 ∧
    ¬ (expOf (queryKey demoDigest "Q")
        (cacheResponse demoDigest 3600 10 "Q" 9 demoStore).2 =
       defaultExpiresAt 3600 10) := by decide

/-- C6 (amended): an insert (no existing row) stores `hit_count = 1` and a
freshly computed `expires_at = write time + TTL` (both via the table defaults
modelled from the spec), while an overwrite of an existing row increments its
`hit_count` and leaves its `expires_at` unchanged — only inserts derive
`expires_at` at write time. -/
theorem spec_c6_insert_defaults {P : Type} (digest : String → String)
    (ttl now : Nat) (q : String) (p : P) (s : Store P) :
    hcOf (queryKey digest q) (cacheResponse digest ttl now q p s).2 =
      (match lookupRow (queryKey digest q) s with
       | none => defaultHitCount
       | some r => r.hitCount + 1) ∧
    expOf (queryKey digest q) (cacheResponse digest ttl now q p s).2 =
      (match lookupRow (queryKey digest q) s with
       | none => defaultExpiresAt ttl now
       | some r => r.expiresAt) := by
  have hs1 : (cacheResponse digest ttl now q p s).2 =
      upsertStore ttl now (queryKey digest q) q p s := rfl
  rw [hs1]
  constructor
  · unfold hcOf
    rw [lookupRow_upsert]
    cases hl0 : lookupRow (queryKey digest q) s <;> simp [defaultHitCount]
  · exact expOf_upsert ttl now (queryKey digest q) q p s

/-- C3: `cache_response` performs its write as one single atomic upsert
statement (its statement list has length one, never a read followed by a
write), so the two possible schedules of two concurrent `cache_response`
calls for the same key both leave exactly one row under that key, with
`hit_count` reflecting both writes (no lost increment; the insert default
`hit_count = 1` is modelled from the spec). -/
theorem spec_c3_atomic_upsert {P : Type} (ttl t1 t2 : Nat)
    (key qt1 qt2 : String) (p1 p2 : P) (s : Store P)
    (hpk : countKey key s ≤ 1) :
    (cacheResponseStmts t1 key qt1 p1).length = 1 ∧
    ∀ l ∈ interleavings (cacheResponseStmts t1 key qt1 p1)
        (cacheResponseStmts t2 key qt2 p2),
      countKey key (runStmts ttl l s) = 1 ∧
      hcOf key (runStmts ttl l s) = hcOf key s + 2 := by
  refine ⟨rfl, ?_⟩
  intro l hl
  have he : interleavings (cacheResponseStmts t1 key qt1 p1)
      (cacheResponseStmts t2 key qt2 p2) =
      [[CacheStmt.upsertS t1 key qt1 p1, CacheStmt.upsertS t2 key qt2 p2],
       [CacheStmt.upsertS t2 key qt2 p2, CacheStmt.upsertS t1 key qt1 p1]] :=
    rfl
  rw [he] at hl
  simp only [List.mem_cons, List.not_mem_nil, or_false] at hl
  rcases hl with rfl | rfl
  · have hrun : runStmts ttl
        [CacheStmt.upsertS t1 key qt1 p1, CacheStmt.upsertS t2 key qt2 p2] s =
        upsertStore ttl t2 key qt2 p2 (upsertStore ttl t1 key qt1 p1 s) := rfl
    rw [hrun]
    refine ⟨countKey_upsert _ _ _ _ _ _
      (le_of_eq (countKey_upsert _ _ _ _ _ _ hpk)), ?_⟩
    rw [hcOf_upsert, hcOf_upsert]
  · have hrun : runStmts ttl
        [CacheStmt.upsertS t2 key qt2 p2, CacheStmt.upsertS t1 key qt1 p1] s =
        upsertStore ttl t1 key qt1 p1 (upsertStore ttl t2 key qt2 p2 s) := rfl
    rw [hrun]
    refine ⟨countKey_upsert _ _ _ _ _ _
      (le_of_eq (countKey_upsert _ _ _ _ _ _ hpk)), ?_⟩
    rw [hcOf_upsert, hcOf_upsert]

/-- Witness for C3: two upserts for key "k" against the one-row `demoStore`
in the first schedule leave one row with hit count 5 = 3 + 2. -/
theorem spec_c3_witness :
    countKey "k" demoStore ≤ 1 ∧
    ((cacheResponseStmts 1 "k" "q" (7 : Nat)).length = 1 ∧
     countKey "k" (runStmts 10
       [CacheStmt.upsertS 1 "k" "q" (7 : Nat),
        CacheStmt.upsertS 2 "k" "q" (8 : Nat)] demoStore) = 1 ∧
     hcOf "k" (runStmts 10
       [CacheStmt.upsertS 1 "k" "q" (7 : Nat),
        CacheStmt.upsertS 2 "k" "q" (8 : Nat)] demoStore) =
       hcOf "k" demoStore + 2) :=
  ⟨by decide,
   ⟨(spec_c3_atomic_upsert 10 1 2 "k" "q" "q" 7 8 demoStore (by decide)).1,
    (spec_c3_atomic_upsert 10 1 2 "k" "q" "q" 7 8 demoStore
      (by decide)).2 _ (by decide)⟩⟩

/-- C4 (counterexample): the hit path of `get_cached_response` issues two
statements — the SELECT and a separate UPDATE — not the single
read-with-side-effect statement the claim asserts. -/
theorem spec_c4_counterexample :
    (getHitPathStmts Nat 0 1 "k").length = 2 ∧
    ¬ ((getHitPathStmts Nat 0 1 "k").length = 1) := by decide

/-- C4 (amended): on a hit, `get_cached_response` increments `hit_count` and
refreshes `last_accessed` in a second, separate UPDATE statement issued
after the SELECT (its hit path runs exactly the two-statement schedule, not
one read-with-side-effect); because that UPDATE is itself a single atomic
in-place increment, every schedule of two concurrent hitting readers still
observes both increments — no increment is lost. -/
theorem spec_c4_separate_update {P : Type} (digest : String → String)
    (ttl tS tU tS2 tU2 : Nat) (q : String) (s : Store P) (r : CacheRow P)
    (hsel : selectFresh tS (queryKey digest q) s = some r) :
    (getHitPathStmts P tS tU (queryKey digest q)).length = 2 ∧
    (getCachedResponse digest tS tU q s).2 =
      runStmts ttl (getHitPathStmts P tS tU (queryKey digest q)) s ∧
    ∀ l ∈ interleavings (getHitPathStmts P tS tU (queryKey digest q))
        (getHitPathStmts P tS2 tU2 (queryKey digest q)),
      hcOf (queryKey digest q) (runStmts ttl l s) =
        hcOf (queryKey digest q) s + 2 := by
  have hsome : (lookupRow (queryKey digest q) s).isSome = true := by
    unfold lookupRow
    rw [List.find?_isSome]
    exact ⟨r, selectFresh_some_mem hsel, (selectFresh_some_beq hsel).1⟩
  refine ⟨rfl, ?_, ?_⟩
  · rw [getCachedResponse_hit digest tS tU q s r hsel]
    rfl
  · intro l hl
    simp only [getHitPathStmts, interleavings, interleavingsAux,
      List.length_cons, List.length_nil, List.map, List.cons_append,
      List.nil_append, List.mem_cons, List.not_mem_nil, or_false] at hl
    rcases hl with rfl | rfl | rfl | rfl | rfl | rfl
    all_goals exact hcOf_two_bumps _ _ _ _ hsome

/-- Witness for C4 at a concrete hit: the functional read equals the
two-statement schedule, and a fully sequential double-read schedule adds two
to the hit count. -/
theorem spec_c4_witness :
    (getCachedResponse demoDigest 4 4 "Q" demoStore).2 =
      runStmts 10 (getHitPathStmts Nat 4 4 (queryKey demoDigest "Q"))
        demoStore ∧
    hcOf (queryKey demoDigest "Q")
      (runStmts 10
        [CacheStmt.selectS 4 (queryKey demoDigest "Q"),
         CacheStmt.bumpS 4 (queryKey demoDigest "Q"),
         CacheStmt.selectS 4 (queryKey demoDigest "Q"),
         CacheStmt.bumpS 4 (queryKey demoDigest "Q")] demoStore) =
      hcOf (queryKey demoDigest "Q") demoStore + 2 :=
  ⟨(spec_c4_separate_update demoDigest 10 4 4 4 4 "Q" demoStore
      ⟨"k", "q", 7, 0, 0, 5, 3⟩ (by decide)).2.1,
   (spec_c4_separate_update demoDigest 10 4 4 4 4 "Q" demoStore
      ⟨"k", "q", 7, 0, 0, 5, 3⟩ (by decide)).2.2 _ (by decide)⟩

/-- C7: whenever any underlying store primitive fails — pool acquisition,
the SELECT, the hit-path UPDATE, or the upsert — `get_cached_response`
returns `None` and `cache_response` returns `False`; both functions are
total (the modelled `try/except` converts every raised error into these
values, so no exception escapes to the caller). -/
theorem spec_c7_store_failure {P : Type}
    (acqG fetch bump acqP exec : Except String Unit)
    (digest : String → String) (tSel tUpd ttl now : Nat) (q : String) (p : P)
    (s : Store P)
    (hget : exceptFailed acqG = true ∨ exceptFailed fetch = true ∨
      exceptFailed bump = true)
    (hput : exceptFailed acqP = true ∨ exceptFailed exec = true) :
    (getCachedResponseF acqG fetch bump digest tSel tUpd q s).1 = none ∧
    (cacheResponseF acqP exec digest ttl now q p s).1 = false := by
  constructor
  · cases acqG with
    | error e => rfl
    | ok u =>
      cases fetch with
      | error e => rfl
      | ok u2 =>
        cases bump with
        | error e =>
          cases hs : selectFresh tSel (queryKey digest q) s <;>
            simp [getCachedResponseF, hs]
        | ok u3 =>
          rcases hget with h | h | h <;> simp [exceptFailed] at h
  · cases acqP with
    | error e => rfl
    | ok u =>
      cases exec with
      | error e => rfl
      | ok u2 => rcases hput with h | h <;> simp [exceptFailed] at h

/-- Witness for C7: with the pool acquisition failing, the read reports a
miss and the write reports failure. -/
theorem spec_c7_witness :
    exceptFailed (Except.error "down" : Except String Unit) = true ∧
    ((getCachedResponseF (Except.error "down") (Except.ok ()) (Except.ok ())
        demoDigest 0 0 "Q" demoStore).1 = none ∧
     (cacheResponseF (Except.error "down") (Except.ok ()) demoDigest 10 0 "Q"
        (9 : Nat) demoStore).1 = false) :=
  ⟨by decide,
   spec_c7_store_failure (Except.error "down") (Except.ok ()) (Except.ok ())
     (Except.error "down") (Except.ok ()) demoDigest 0 0 10 0 "Q" 9 demoStore
     (Or.inl (by decide)) (Or.inl (by decide))⟩

/-- C8: the sync bridge dispatches on whether a scheduler is already
running — direct `run_until_complete` on the calling context when not,
worker thread plus `asyncio.run` and a blocking `future.result()` when so —
and on both paths the operation's outcome is returned unchanged: a value is
returned and a failure is re-raised to the original caller, never
swallowed. -/
theorem spec_c8_sync_bridge {E A : Type} (loopRunning : Bool)
    (coro : Except E A) :
    runAsyncBridge loopRunning coro = coro ∧
    runAsyncBridge true coro = futureResult (submitWorker coro) ∧
    runAsyncBridge false coro = runUntilComplete coro := by
  cases loopRunning <;>
    simp [runAsyncBridge, futureResult, submitWorker, asyncioRun,
      runUntilComplete]
